import Mathlib

/-!
Verification of the stack-capture / perf-map symbol-resolution core
(src/backtrace/framehop_unwinder/perfmap.rs, src/backtrace/backtrace_rs.rs,
src/backtrace/mod.rs) against its natural-language specification.

The Rust code is shallowly embedded: machine integers (usize on a 64-bit
target) are Nat with explicit reduction modulo 2^64 where overflow matters,
fallible operations return Option or Except, and the stateful
registry/resolver code is explicit state passing.  A file is modelled as
Option (List String): none when std::fs::File::open fails, otherwise the
list of lines produced by BufRead::lines (newline terminators stripped).
-/

/-- Size of the usize value space on the 64-bit targets the crate supports. -/
def USIZE : Nat := 2 ^ 64

/-- The Unicode White_Space test used by Rust's char::is_whitespace /
str::split_whitespace, on the scalar value of the character. -/
def isWS (c : Char) : Bool :=
  c.toNat = 9 || c.toNat = 10 || c.toNat = 11 || c.toNat = 12 || c.toNat = 13 ||
  c.toNat = 32 || c.toNat = 133 || c.toNat = 160 || c.toNat = 5760 ||
  (8192 ≤ c.toNat && c.toNat ≤ 8202) ||
  c.toNat = 8232 || c.toNat = 8233 || c.toNat = 8239 || c.toNat = 8287 ||
  c.toNat = 12288

/-- Accumulator pass of str::split_whitespace: collects the current token in
reverse in acc, emitting it when whitespace or the end of input is reached.
Empty tokens are never emitted, matching Rust. -/
def splitWSAux : List Char → List Char → List (List Char)
  | [], acc => if acc.isEmpty then [] else [acc.reverse]
  | c :: cs, acc =>
    if isWS c then
      if acc.isEmpty then splitWSAux cs [] else acc.reverse :: splitWSAux cs []
    else
      splitWSAux cs (c :: acc)

/-- str::split_whitespace: the maximal non-empty runs of non-whitespace
characters, in order. -/
def splitWS (l : List Char) : List (List Char) := splitWSAux l []

/-- Vec::join with a single-space separator, as used for the name field
(parts.collect then join with a space). -/
def joinSpace : List (List Char) → List Char
  | [] => []
  | [t] => t
  | t :: ts => t ++ Char.ofNat 32 :: joinSpace ts

/-- Value of one hexadecimal digit, exactly the characters radix 16 accepts
in usize::from_str_radix: 0-9, a-f, A-F. -/
def hexDigitVal (c : Char) : Option Nat :=
  if 48 ≤ c.toNat ∧ c.toNat ≤ 57 then some (c.toNat - 48)
  else if 97 ≤ c.toNat ∧ c.toNat ≤ 102 then some (c.toNat - 87)
  else if 65 ≤ c.toNat ∧ c.toNat ≤ 70 then some (c.toNat - 55)
  else none

/-- Left-to-right accumulation of hex digits; none on the first character
that is not a hexadecimal digit. -/
def parseHexDigits : List Char → Nat → Option Nat
  | [], acc => some acc
  | c :: cs, acc =>
    match hexDigitVal c with
    | none => none
    | some d => parseHexDigits cs (acc * 16 + d)

/-- The sign handling of usize::from_str_radix on an unsigned type: an
optional leading plus (code point 43) is stripped; a minus is not a hex
digit and fails later.  The digits after the sign must be non-empty and
each a hex digit; overflow is checked with per-digit checked arithmetic,
which for a non-negative accumulator is equivalent to checking that the
final value fits in usize. -/
def stripPlus (l : List Char) : List Char :=
  match l with
  | c :: _ => if c.toNat = 43 then l.tail else l
  | [] => l

/-- usize::from_str_radix(s, 16) proper: strip the optional sign, require
at least one digit, accumulate, reject values outside usize. -/
def fromStrRadix16 (l : List Char) : Option Nat :=
  match stripPlus l with
  | [] => none
  | c :: cs =>
    match parseHexDigits (c :: cs) 0 with
    | none => none
    | some v => if v < USIZE then some v else none

/-- One iteration of the parse loop in PerfMap::new: split the line on
whitespace, read two hex numbers, rejoin the remaining tokens with single
spaces as the name.  The stored end is start + len in usize arithmetic,
i.e. reduced modulo 2^64 (the code has no overflow check; release-profile
semantics wrap). -/
def parseLine (line : String) : Option (Nat × Nat × String) :=
  match splitWS line.data with
  | t1 :: t2 :: rest =>
    match fromStrRadix16 t1 with
    | none => none
    | some start =>
      match fromStrRadix16 t2 with
      | none => none
      | some len => some (start, (start + len) % USIZE, String.mk (joinSpace rest))
  | _ => none

/-- The parse loop of PerfMap::new over the lines of the file: any failing
line aborts the whole parse with none. -/
def parseLines : List String → Option (List (Nat × Nat × String))
  | [] => some []
  | l :: ls =>
    match parseLine l with
    | none => none
    | some r =>
      match parseLines ls with
      | none => none
      | some rs => some (r :: rs)

/-- PerfMap: an ordered list of (start, end, name) ranges, as parsed from
one read of the perf-map file. -/
structure PerfMap where
  ranges : List (Nat × Nat × String)
deriving DecidableEq, Repr

/-- PerfMap::new: none when the file cannot be opened (the Option input is
none) or any line fails to parse; otherwise the table of all lines in file
order. -/
def PerfMap.new (file : Option (List String)) : Option PerfMap :=
  match file with
  | none => none
  | some lines =>
    match parseLines lines with
    | none => none
    | some rs => some ⟨rs⟩

/-- The scan loop of PerfMap::find: first range, in stored order, with
start ≤ addr < end. -/
def findRange : List (Nat × Nat × String) → Nat → Option String
  | [], _ => none
  | (s, e, n) :: rest, addr =>
    if s ≤ addr ∧ addr < e then some n else findRange rest addr

/-- PerfMap::find. -/
def PerfMap.find (m : PerfMap) (addr : Nat) : Option String :=
  findRange m.ranges addr

/-- PerfMapSymbol: a resolved perf-map hit, wrapping only the name string. -/
structure PerfMapSymbol where
  val : String
deriving DecidableEq, Repr

/-- AsSymbol::name for PerfMapSymbol: always the bytes of the stored name. -/
def PerfMapSymbol.name (s : PerfMapSymbol) : Option String := some s.val

/-- AsSymbol::addr for PerfMapSymbol: always None. -/
def PerfMapSymbol.addr (_ : PerfMapSymbol) : Option Nat := none

/-- AsSymbol::lineno for PerfMapSymbol: always None. -/
def PerfMapSymbol.lineno (_ : PerfMapSymbol) : Option Nat := none

/-- AsSymbol::filename for PerfMapSymbol: always None. -/
def PerfMapSymbol.filename (_ : PerfMapSymbol) : Option String := none

/-- PerfMapResolver: the contents of the RwLock<Option<PerfMap>> snapshot
cell.  Lock acquisition itself is modelled as atomic (RwLock semantics). -/
structure PerfMapResolver where
  perf_map : Option PerfMap
deriving DecidableEq, Repr

/-- The snapshot-construction part of PerfMapResolver::new: the initial
table is PerfMap::new on the backing file (best effort: a missing,
unreadable or malformed file leaves the no-table state none). -/
def PerfMapResolver.new (file : Option (List String)) : PerfMapResolver :=
  ⟨PerfMap.new file⟩

/-- PerfMapResolver::resolve: read the current snapshot; on no table return
none, otherwise wrap a find hit as a PerfMapSymbol. -/
def PerfMapResolver.resolve (r : PerfMapResolver) (addr : Nat) : Option PerfMapSymbol :=
  match r.perf_map with
  | none => none
  | some pm =>
    match pm.find addr with
    | none => none
    | some n => some ⟨n⟩

/-- The watcher thread's handling of one debounced change event: it reparses
the file from scratch and replaces the whole snapshot under the write lock
(a single wholesale assignment, never an in-place edit).  The file's content
at each event is given by its version number. -/
def watcherStep (files : Nat → Option (List String)) (v : Nat)
    (_ : PerfMapResolver) : PerfMapResolver :=
  ⟨PerfMap.new (files v)⟩

/-- The snapshot cell after the watcher has processed a list of debounced
events (file versions) in order, starting from the initial parse of
version 0 made by PerfMapResolver::new. -/
def snapshotAfter (files : Nat → Option (List String)) (evs : List Nat) : PerfMapResolver :=
  evs.foldl (fun st v => watcherStep files v st) (PerfMapResolver.new (files 0))

/-- The crate's Error enumeration, restricted to the variant this module
produces (Error::CreatingError from touch / create_debouncer failures). -/
inductive CrateError where
  | CreatingError
deriving DecidableEq, Repr

/-- The two process-wide statics: SHOULD_USE_PERF_MAP (an AtomicBool, false
at process start) and PERF_MAP_RESOLVER (a OnceCell, empty at start). -/
structure RegistryState where
  should_use_perf_map : Bool
  perf_map_resolver : Option PerfMapResolver
deriving DecidableEq, Repr

/-- The registry state at process start. -/
def RegistryState.initial : RegistryState := ⟨false, none⟩

/-- init_perfmap_resolver: store true into SHOULD_USE_PERF_MAP. -/
def init_perfmap_resolver (s : RegistryState) : RegistryState :=
  { s with should_use_perf_map := true }

/-- get_resolver: when the flag is unset, Ok(None) without touching the
cell; otherwise OnceCell::get_or_try_init, whose closure's outcome (the
fallible PerfMapResolver::new, an environment effect) is passed in as
construct.  On a construction error the cell stays empty — get_or_try_init
does not poison the cell.  Returns the new registry state with the result. -/
def get_resolver (construct : Except CrateError PerfMapResolver)
    (s : RegistryState) : RegistryState × Except CrateError (Option PerfMapResolver) :=
  if s.should_use_perf_map then
    match s.perf_map_resolver with
    | some r => (s, Except.ok (some r))
    | none =>
      match construct with
      | Except.ok r => ({ s with perf_map_resolver := some r }, Except.ok (some r))
      | Except.error e => (s, Except.error e)
  else
    (s, Except.ok none)

/-- One hexadecimal digit character, lower case, as produced when
serializing an address for the perf-map line format. -/
def hexChar (d : Nat) : Char :=
  if d < 10 then Char.ofNat (48 + d) else Char.ofNat (87 + d)

/-- Hexadecimal rendering of a number, most significant digit first, no
prefix, at least one digit. -/
def toHexList (n : Nat) : List Char :=
  if n < 16 then [hexChar n]
  else toHexList (n / 16) ++ [hexChar (n % 16)]
termination_by n
decreasing_by exact Nat.div_lt_self (by omega) (by omega)

/-- Serialization of one (start, length, name) triple into the perf-map
line format: start-hex, one space, length-hex, one space, then the name. -/
def serializeLine (t : Nat × Nat × String) : String :=
  String.mk (toHexList t.1 ++ Char.ofNat 32 :: (toHexList t.2.1 ++ Char.ofNat 32 :: t.2.2.data))

/-- The (start, length) ranges of a triple list are pairwise
non-overlapping: for any two, one ends no later than the other starts. -/
def nonOverlapping (L : List (Nat × Nat × String)) : Prop :=
  List.Pairwise (fun a b => a.1 + a.2.1 ≤ b.1 ∨ b.1 + b.2.1 ≤ a.1) L

instance : DecidablePred nonOverlapping := fun L => by
  unfold nonOverlapping
  infer_instance

/-- A line the parse loop rejects: fewer than two whitespace-separated
tokens (start or length field missing), or a first or second token that is
not a valid hexadecimal usize. -/
def malformedLine (l : String) : Bool :=
  match splitWS l.data with
  | t1 :: t2 :: _ => (fromStrRadix16 t1).isNone || (fromStrRadix16 t2).isNone
  | _ => true

/-- Modelled from the spec: the frame walk performed by
backtrace::trace_unsynchronized, which lives in the external backtrace
crate — src/backtrace/backtrace_rs.rs only delegates to it (Trace::trace)
and src/backtrace/mod.rs only declares the contract.  Per the spec, the
walk visits frames innermost outward and stops when the visitor returns
false, when no further frame can be determined (next = none), or when the
implementation-defined maximum depth guard (the fuel argument) is reached.
Returns the frames the visitor was invoked on, in order. -/
def traceWalk {α : Type} (next : α → Option α) (visitor : α → Bool) :
    Option α → Nat → List α
  | _, 0 => []
  | none, _ => []
  | some f, d + 1 =>
    if visitor f then f :: traceWalk next visitor (next f) d else [f]

/-! Helper lemmas. -/

theorem findRange_eq_find? (ranges : List (Nat × Nat × String)) (addr : Nat) :
    findRange ranges addr =
      (ranges.find? fun t => decide (t.1 ≤ addr) && decide (addr < t.2.1)).map
        fun t => t.2.2 := by
  induction ranges with
  | nil => rfl
  | cons t rest ih =>
    obtain ⟨s, e, n⟩ := t
    by_cases h : s ≤ addr ∧ addr < e
    · simp [findRange, h, List.find?_cons_of_pos, h.1, h.2]
    · rw [Classical.not_and_iff_or_not_not] at h
      rcases h with h | h
      · simp [findRange, List.find?_cons_of_neg, h, ih]
      · simp [findRange, List.find?_cons_of_neg, h, ih]

theorem parseLines_eq_none (lines : List String) (l : String)
    (hmem : l ∈ lines) (hbad : parseLine l = none) :
    parseLines lines = none := by
  induction lines with
  | nil => cases hmem
  | cons x xs ih =>
    rcases List.mem_cons.mp hmem with h | h
    · subst h
      simp [parseLines, hbad]
    · simp only [parseLines]
      cases hx : parseLine x with
      | none => rfl
      | some r => rw [ih h]

theorem parseLine_of_malformed (l : String) (h : malformedLine l = true) :
    parseLine l = none := by
  unfold malformedLine at h
  unfold parseLine
  cases hs : splitWS l.data with
  | nil => rfl
  | cons t1 ts =>
    cases ts with
    | nil => rfl
    | cons t2 rest =>
      rw [hs] at h
      simp only [Bool.or_eq_true, Option.isNone_iff_eq_none] at h
      rcases h with h | h
      · simp [h]
      · cases h1 : fromStrRadix16 t1 <;> simp [h, h1]

theorem foldl_watcherStep_version (files : Nat → Option (List String))
    (evs : List Nat) (st : PerfMapResolver) :
    (∃ w, List.foldl (fun st v => watcherStep files v st) st evs =
      PerfMapResolver.new (files w)) ∨
    List.foldl (fun st v => watcherStep files v st) st evs = st := by
  induction evs generalizing st with
  | nil => exact Or.inr rfl
  | cons u us ih =>
    rcases ih (watcherStep files u st) with ⟨w, hw⟩ | hw
    · exact Or.inl ⟨w, by rw [List.foldl_cons]; exact hw⟩
    · exact Or.inl ⟨u, by rw [List.foldl_cons, hw]; rfl⟩

theorem snapshotAfter_is_one_version (files : Nat → Option (List String))
    (evs : List Nat) :
    ∃ v, snapshotAfter files evs = PerfMapResolver.new (files v) := by
  unfold snapshotAfter
  rcases foldl_watcherStep_version files evs (PerfMapResolver.new (files 0)) with
    ⟨w, hw⟩ | hw
  · exact ⟨w, hw⟩
  · exact ⟨0, hw⟩

theorem traceWalk_length_le {α : Type} (next : α → Option α) (visitor : α → Bool) :
    ∀ (fuel : Nat) (start : Option α),
      (traceWalk next visitor start fuel).length ≤ fuel := by
  intro fuel
  induction fuel with
  | zero => intro start; cases start <;> simp [traceWalk]
  | succ d ih =>
    intro start
    cases start with
    | none => simp [traceWalk]
    | some f =>
      by_cases h : visitor f = true
      · simp only [traceWalk, h, if_true, List.length_cons]
        exact Nat.succ_le_succ (ih (next f))
      · simp [traceWalk, h]

theorem hexChar_spec (d : Nat) (hd : d < 16) :
    hexDigitVal (hexChar d) = some d ∧ isWS (hexChar d) = false ∧
    (hexChar d).toNat ≠ 43 := by
  interval_cases d <;> exact ⟨by decide, by decide, by decide⟩

theorem mem_toHexList (n : Nat) : ∀ c ∈ toHexList n, ∃ d, d < 16 ∧ c = hexChar d := by
  induction n using Nat.strong_induction_on with
  | _ n ih =>
    intro c hc
    unfold toHexList at hc
    by_cases h : n < 16
    · rw [if_pos h] at hc
      rw [List.mem_singleton.mp hc]
      exact ⟨n, h, rfl⟩
    · rw [if_neg h] at hc
      rcases List.mem_append.mp hc with h1 | h1
      · exact ih (n / 16) (Nat.div_lt_self (by omega) (by omega)) c h1
      · rw [List.mem_singleton.mp h1]
        exact ⟨n % 16, Nat.mod_lt _ (by omega), rfl⟩

theorem noWS_toHexList (n : Nat) : ∀ c ∈ toHexList n, isWS c = false := by
  intro c hc
  obtain ⟨d, hd, rfl⟩ := mem_toHexList n c hc
  exact (hexChar_spec d hd).2.1

theorem toHexList_ne_nil (n : Nat) : toHexList n ≠ [] := by
  unfold toHexList
  split <;> simp

theorem parseHexDigits_append (xs ys : List Char) :
    ∀ acc : Nat, parseHexDigits (xs ++ ys) acc =
      match parseHexDigits xs acc with
      | none => none
      | some v => parseHexDigits ys v := by
  induction xs with
  | nil => intro acc; rfl
  | cons x xs ih =>
    intro acc
    simp only [List.cons_append, parseHexDigits]
    cases hx : hexDigitVal x with
    | none => rfl
    | some d => exact ih (acc * 16 + d)

theorem parseHexDigits_toHexList (n : Nat) :
    ∀ acc : Nat, parseHexDigits (toHexList n) acc =
      some (acc * 16 ^ (toHexList n).length + n) := by
  induction n using Nat.strong_induction_on with
  | _ n ih =>
    intro acc
    by_cases h : n < 16
    · unfold toHexList
      rw [if_pos h]
      simp only [parseHexDigits, (hexChar_spec n h).1, List.length_singleton]
      norm_num
    · unfold toHexList
      rw [if_neg h]
      rw [parseHexDigits_append]
      rw [ih (n / 16) (Nat.div_lt_self (by omega) (by omega)) acc]
      have hd := (hexChar_spec (n % 16) (Nat.mod_lt _ (by omega))).1
      simp only [parseHexDigits, hd, List.length_append, List.length_singleton]
      congr 1
      rw [Nat.pow_succ, ← Nat.mul_assoc]
      have hdm := Nat.div_add_mod n 16
      generalize acc * 16 ^ (toHexList (n / 16)).length = m
      omega

theorem fromStrRadix16_toHexList (n : Nat) (hn : n < USIZE) :
    fromStrRadix16 (toHexList n) = some n := by
  cases hl : toHexList n with
  | nil => exact absurd hl (toHexList_ne_nil n)
  | cons c r =>
    have hmem : c ∈ toHexList n := by rw [hl]; exact List.mem_cons_self c r
    obtain ⟨d, hd, hcd⟩ := mem_toHexList n c hmem
    have h43 : ¬c.toNat = 43 := by rw [hcd]; exact (hexChar_spec d hd).2.2
    have hsp : stripPlus (c :: r) = c :: r := by
      show (if c.toNat = 43 then (c :: r).tail else c :: r) = c :: r
      rw [if_neg h43]
    unfold fromStrRadix16
    rw [hsp]
    show (match parseHexDigits (c :: r) 0 with
      | none => none
      | some v => if v < USIZE then some v else none) = some n
    rw [← hl, parseHexDigits_toHexList n 0]
    simp only [Nat.zero_mul, Nat.zero_add]
    rw [if_pos hn]

theorem parseHexDigits_mem (xs : List Char) :
    ∀ (acc v : Nat), parseHexDigits xs acc = some v →
      ∀ c ∈ xs, ∃ d, hexDigitVal c = some d := by
  induction xs with
  | nil => intro acc v _ c hc; cases hc
  | cons x xs ih =>
    intro acc v h c hc
    unfold parseHexDigits at h
    cases hx : hexDigitVal x with
    | none => rw [hx] at h; exact Option.noConfusion h
    | some d =>
      rw [hx] at h
      rcases List.mem_cons.mp hc with rfl | hc2
      · exact ⟨d, hx⟩
      · exact ih (acc * 16 + d) v h c hc2

theorem isWS_43 (c : Char) (h : c.toNat = 43) : isWS c = false := by
  simp [isWS, h]

theorem hexDigitVal_not_ws (c : Char) (d : Nat) (h : hexDigitVal c = some d) :
    isWS c = false := by
  have hr : (48 ≤ c.toNat ∧ c.toNat ≤ 57) ∨ (97 ≤ c.toNat ∧ c.toNat ≤ 102) ∨
      (65 ≤ c.toNat ∧ c.toNat ≤ 70) := by
    unfold hexDigitVal at h
    by_cases h1 : 48 ≤ c.toNat ∧ c.toNat ≤ 57
    · exact Or.inl h1
    by_cases h2 : 97 ≤ c.toNat ∧ c.toNat ≤ 102
    · exact Or.inr (Or.inl h2)
    by_cases h3 : 65 ≤ c.toNat ∧ c.toNat ≤ 70
    · exact Or.inr (Or.inr h3)
    rw [if_neg h1, if_neg h2, if_neg h3] at h
    exact Option.noConfusion h
  rcases hr with ⟨a, b⟩ | ⟨a, b⟩ | ⟨a, b⟩ <;> simp [isWS] <;> omega

theorem fromStrRadix16_lt (l : List Char) (v : Nat)
    (h : fromStrRadix16 l = some v) : v < USIZE := by
  unfold fromStrRadix16 at h
  split at h
  · exact Option.noConfusion h
  · split at h
    · exact Option.noConfusion h
    · split at h
      · rename_i hlt
        cases h
        exact hlt
      · exact Option.noConfusion h

theorem fromStrRadix16_ne_nil (l : List Char) (v : Nat)
    (h : fromStrRadix16 l = some v) : l ≠ [] := by
  intro hnil
  rw [hnil] at h
  exact Option.noConfusion h

theorem fromStrRadix16_no_ws (l : List Char) (v : Nat)
    (h : fromStrRadix16 l = some v) : ∀ c ∈ l, isWS c = false := by
  have hdig : ∀ c ∈ stripPlus l, ∃ d, hexDigitVal c = some d := by
    unfold fromStrRadix16 at h
    split at h
    · rename_i heq
      rw [heq]
      intro c hc
      cases hc
    · rename_i c0 cs heq
      split at h
      · exact Option.noConfusion h
      · rename_i v0 hph
        rw [heq]
        exact parseHexDigits_mem (c0 :: cs) 0 v0 hph
  intro c hc
  cases l with
  | nil => cases hc
  | cons c0 r =>
    by_cases h43 : c0.toNat = 43
    · have hsp : stripPlus (c0 :: r) = r := by simp [stripPlus, h43]
      rcases List.mem_cons.mp hc with rfl | hc2
      · exact isWS_43 c h43
      · obtain ⟨d, hd⟩ := hdig c (by rw [hsp]; exact hc2)
        exact hexDigitVal_not_ws c d hd
    · have hsp : stripPlus (c0 :: r) = c0 :: r := by simp [stripPlus, h43]
      obtain ⟨d, hd⟩ := hdig c (by rw [hsp]; exact hc)
      exact hexDigitVal_not_ws c d hd

theorem splitWSAux_token (tok : List Char) :
    (∀ c ∈ tok, isWS c = false) →
    ∀ (cs acc : List Char), splitWSAux (tok ++ cs) acc = splitWSAux cs (tok.reverse ++ acc) := by
  induction tok with
  | nil => intro _ cs acc; simp
  | cons c rest ih =>
    intro hws cs acc
    have hc : isWS c = false := hws c (List.mem_cons_self c rest)
    simp only [List.cons_append, splitWSAux, hc, Bool.false_eq_true, if_false]
    show splitWSAux (rest ++ cs) (c :: acc) = splitWSAux cs ((c :: rest).reverse ++ acc)
    rw [ih (fun x hx => hws x (List.mem_cons_of_mem _ hx)) cs (c :: acc)]
    rw [List.reverse_cons, List.append_assoc, List.singleton_append]

theorem splitWS_cons_token (tok rest : List Char) (hne : tok ≠ [])
    (hws : ∀ c ∈ tok, isWS c = false) :
    splitWS (tok ++ Char.ofNat 32 :: rest) = tok :: splitWS rest := by
  unfold splitWS
  rw [splitWSAux_token tok hws (Char.ofNat 32 :: rest) []]
  have h32 : isWS (Char.ofNat 32) = true := by decide
  have hre : tok.reverse.isEmpty = false := by
    rw [List.isEmpty_eq_false_iff_exists_mem]
    cases tok with
    | nil => exact absurd rfl hne
    | cons x xs => exact ⟨x, by simp⟩
  simp only [splitWSAux, h32, if_true, hre, Bool.false_eq_true, if_false,
    List.append_nil, List.reverse_reverse]

theorem parseLine_serializeLine (s l : Nat) (nm : String)
    (hsum : s + l < USIZE)
    (hnm : String.mk (joinSpace (splitWS nm.data)) = nm) :
    parseLine (serializeLine (s, l, nm)) = some (s, s + l, nm) := by
  unfold parseLine serializeLine
  have hdata :
      (String.mk (toHexList s ++ Char.ofNat 32 :: (toHexList l ++ Char.ofNat 32 :: nm.data))).data =
        toHexList s ++ Char.ofNat 32 :: (toHexList l ++ Char.ofNat 32 :: nm.data) := rfl
  rw [hdata]
  rw [splitWS_cons_token (toHexList s) _ (toHexList_ne_nil s) (noWS_toHexList s)]
  rw [splitWS_cons_token (toHexList l) _ (toHexList_ne_nil l) (noWS_toHexList l)]
  simp only [fromStrRadix16_toHexList s (by omega), fromStrRadix16_toHexList l (by omega)]
  rw [Nat.mod_eq_of_lt hsum, hnm]

theorem parseLines_serialize :
    ∀ L : List (Nat × Nat × String),
      (∀ t ∈ L, t.1 + t.2.1 < USIZE ∧
        String.mk (joinSpace (splitWS t.2.2.data)) = t.2.2) →
      parseLines (L.map serializeLine) =
        some (L.map fun t => (t.1, t.1 + t.2.1, t.2.2)) := by
  intro L
  induction L with
  | nil => intro _; rfl
  | cons t ts ih =>
    intro hok
    obtain ⟨s, l, nm⟩ := t
    have h1 := hok (s, l, nm) (List.mem_cons_self _ _)
    simp only [List.map_cons, parseLines,
      parseLine_serializeLine s l nm h1.1 h1.2]
    rw [ih (fun x hx => hok x (List.mem_cons_of_mem _ hx))]

theorem usize_wrap_lt (s l : Nat) (hs : s < USIZE) (hl : l < USIZE)
    (h : USIZE ≤ s + l) : (s + l) % USIZE < s := by
  have hU : USIZE = 18446744073709551616 := by norm_num [USIZE]
  have hm : (s + l) % USIZE = s + l - USIZE := by
    rw [Nat.mod_eq_sub_mod h, Nat.mod_eq_of_lt (by omega)]
  omega

theorem findRange_single_empty (s e : Nat) (n : String) (he : e ≤ s) (addr : Nat) :
    findRange [(s, e, n)] addr = none := by
  simp only [findRange]
  rw [if_neg (by omega)]

/-! Claim theorems. -/

/-- C1, counterexample to the claim as stated: the line "1000 100" is
missing its third (name) field, yet PerfMap::new does not return None — it
returns a table containing the range with an empty name. -/
theorem C1_missing_name_counterexample :
    PerfMap.new (some ["1000 100"]) = some ⟨[(4096, 4352, "")]⟩ ∧
    PerfMap.new (some ["1000 100"]) ≠ none := by
  constructor
  · decide
  · decide

/-- C1, amended: if any line of the file has fewer than two
whitespace-separated tokens (a missing start or length field) or a first or
second token that is not a valid hexadecimal usize, then PerfMap::new
returns None, never a partially-populated table; a line missing only the
name field, however, parses with an empty name. -/
theorem C1_malformed_line_rejects_file (lines : List String) (l : String)
    (hmem : l ∈ lines) (hbad : malformedLine l = true) :
    PerfMap.new (some lines) = none := by
  have h := parseLines_eq_none lines l hmem (parseLine_of_malformed l hbad)
  simp [PerfMap.new, h]

/-- C1 witness: a file whose second line has a non-hexadecimal start
parses to no table at all, even though its first line is well-formed. -/
theorem C1_witness :
    ("zz 1 g" ∈ ["1000 100 f", "zz 1 g"]) ∧ malformedLine "zz 1 g" = true ∧
    PerfMap.new (some ["1000 100 f", "zz 1 g"]) = none :=
  ⟨by decide, by decide,
    C1_malformed_line_rejects_file ["1000 100 f", "zz 1 g"] "zz 1 g"
      (by decide) (by decide)⟩

/-- C2: find(addr) returns the name of the first stored range (in file
order) with start ≤ addr < end, none when no stored range contains addr;
at the boundaries addr = start matches and addr = end does not (the scan
skips that range). -/
theorem C2_find_first_match :
    (∀ (m : PerfMap) (addr : Nat),
      m.find addr =
        (m.ranges.find? fun t => decide (t.1 ≤ addr) && decide (addr < t.2.1)).map
          fun t => t.2.2) ∧
    (∀ (m : PerfMap) (addr : Nat),
      (∀ t ∈ m.ranges, ¬(t.1 ≤ addr ∧ addr < t.2.1)) → m.find addr = none) ∧
    (∀ (s e : Nat) (n : String) (rest : List (Nat × Nat × String)) (addr : Nat),
      s ≤ addr → addr < e → PerfMap.find ⟨(s, e, n) :: rest⟩ addr = some n) ∧
    (∀ (s e : Nat) (n : String) (rest : List (Nat × Nat × String)),
      PerfMap.find ⟨(s, e, n) :: rest⟩ e = PerfMap.find ⟨rest⟩ e) := by
  refine ⟨?_, ?_, ?_, ?_⟩
  · intro m addr
    exact findRange_eq_find? m.ranges addr
  · intro m addr h
    have hnone :
        (m.ranges.find? fun t => decide (t.1 ≤ addr) && decide (addr < t.2.1)) = none := by
      rw [List.find?_eq_none]
      intro t ht
      simp only [Bool.and_eq_true, decide_eq_true_eq]
      exact fun hc => h t ht ⟨hc.1, hc.2⟩
    exact (findRange_eq_find? m.ranges addr).trans (by rw [hnone]; rfl)
  · intro s e n rest addr h1 h2
    simp [PerfMap.find, findRange, h1, h2]
  · intro s e n rest
    simp [PerfMap.find, findRange]

/-- C2 witness: on the table with the single range [0x1000, 0x1100),
lookup at the start address 0x1000 hits, and lookup at the end address
0x1100 falls through to the (empty) rest of the table. -/
theorem C2_witness :
    PerfMap.find ⟨[(4096, 4352, "f")]⟩ 4096 = some "f" ∧
    PerfMap.find ⟨[(4096, 4352, "f")]⟩ 4352 = none :=
  ⟨C2_find_first_match.2.2.1 4096 4352 "f" [] 4096 (by decide) (by decide),
    (C2_find_first_match.2.2.2 4096 4352 "f" []).trans rfl⟩

/-- C4: a resolve hit carries only the name of the matched range; the
address, line-number and filename accessors of PerfMapSymbol return None
for every symbol. -/
theorem C4_hit_carries_only_name :
    (∀ sym : PerfMapSymbol,
      sym.addr = none ∧ sym.lineno = none ∧ sym.filename = none) ∧
    (∀ (r : PerfMapResolver) (addr : Nat) (sym : PerfMapSymbol),
      r.resolve addr = some sym →
      sym.name = (r.perf_map.bind fun pm => pm.find addr) ∧
      sym.addr = none ∧ sym.lineno = none ∧ sym.filename = none) := by
  refine ⟨fun sym => ⟨rfl, rfl, rfl⟩, ?_⟩
  intro r addr sym h
  refine ⟨?_, rfl, rfl, rfl⟩
  unfold PerfMapResolver.resolve at h
  cases hp : r.perf_map with
  | none =>
    rw [hp] at h
    exact Option.noConfusion h
  | some pm =>
    rw [hp] at h
    have h2 : (match pm.find addr with
        | none => none
        | some n => some (⟨n⟩ : PerfMapSymbol)) = some sym := h
    cases hf : pm.find addr with
    | none =>
      rw [hf] at h2
      exact Option.noConfusion h2
    | some n =>
      rw [hf] at h2
      cases h2
      show some n = pm.find addr
      exact hf.symm

/-- C4 witness: resolving 0x1050 against a one-line table hits, and the
returned symbol has the matched name and absent address, line and file. -/
theorem C4_witness :
    ((PerfMapResolver.new (some ["1000 100 f"])).resolve 4176 = some ⟨"f"⟩) ∧
    ((PerfMapSymbol.mk "f").name =
      ((PerfMapResolver.new (some ["1000 100 f"])).perf_map.bind fun pm => pm.find 4176) ∧
      (PerfMapSymbol.mk "f").addr = none ∧ (PerfMapSymbol.mk "f").lineno = none ∧
      (PerfMapSymbol.mk "f").filename = none) :=
  ⟨by decide, C4_hit_carries_only_name.2 (PerfMapResolver.new (some ["1000 100 f"]))
    4176 ⟨"f"⟩ (by decide)⟩

/-- C5: when the current snapshot is the no-table state — in particular
when the backing file was absent (PerfMap::new of none) or its content
malformed — resolve returns none for every address; parse failure is
reported to lookup callers only as an absent symbol, never as an error. -/
theorem C5_no_table_resolves_none :
    (∀ addr : Nat, PerfMapResolver.resolve ⟨none⟩ addr = none) ∧
    (PerfMap.new none = none) ∧
    (∀ (file : Option (List String)) (addr : Nat),
      PerfMap.new file = none → (PerfMapResolver.new file).resolve addr = none) := by
  refine ⟨fun addr => rfl, rfl, ?_⟩
  intro file addr h
  unfold PerfMapResolver.resolve PerfMapResolver.new
  rw [h]

/-- C5 witness: a file consisting of one malformed line parses to no
table, and the resolver constructed from it resolves nothing at 0. -/
theorem C5_witness :
    PerfMap.new (some ["zz"]) = none ∧
    (PerfMapResolver.new (some ["zz"])).resolve 0 = none :=
  ⟨by decide, C5_no_table_resolves_none.2.2 (some ["zz"]) 0 (by decide)⟩

/-- C6: init_perfmap_resolver is idempotent (a second call leaves the
registry state exactly as one call does), and while the enable flag is
unset — as it is in the initial state — get_resolver returns Ok(None)
with the state untouched, for every possible construction outcome (so no
resolver is built and no watcher started). -/
theorem C6_idempotent_enable :
    (∀ s : RegistryState,
      init_perfmap_resolver (init_perfmap_resolver s) = init_perfmap_resolver s) ∧
    (RegistryState.initial.should_use_perf_map = false) ∧
    (∀ (s : RegistryState) (c : Except CrateError PerfMapResolver),
      s.should_use_perf_map = false → get_resolver c s = (s, Except.ok none)) := by
  refine ⟨fun s => rfl, rfl, ?_⟩
  intro s c h
  unfold get_resolver
  rw [h]
  rfl

/-- C6 witness: in the initial state, get_resolver returns Ok(None) even
when construction would fail, and double enable equals single enable. -/
theorem C6_witness :
    RegistryState.initial.should_use_perf_map = false ∧
    get_resolver (Except.error CrateError.CreatingError) RegistryState.initial =
      (RegistryState.initial, Except.ok none) :=
  ⟨by decide,
    C6_idempotent_enable.2.2 RegistryState.initial
      (Except.error CrateError.CreatingError) (by decide)⟩

/-- C7: once enabled, get_resolver returns the cached singleton unchanged
whenever the cell is already filled (regardless of the construction
outcome, so construction runs at most once); on an empty cell a successful
construction fills the cell and returns that instance; a failed
construction surfaces the error, leaves the cell empty (no poisoning), and
a subsequent call with a successful construction fills the cell. -/
theorem C7_singleton_once_not_poisoned :
    (∀ (s : RegistryState) (c : Except CrateError PerfMapResolver) (r : PerfMapResolver),
      s.should_use_perf_map = true → s.perf_map_resolver = some r →
      get_resolver c s = (s, Except.ok (some r))) ∧
    (∀ (s : RegistryState) (r : PerfMapResolver),
      s.should_use_perf_map = true → s.perf_map_resolver = none →
      get_resolver (Except.ok r) s =
        ({ s with perf_map_resolver := some r }, Except.ok (some r))) ∧
    (∀ (s : RegistryState) (e : CrateError),
      s.should_use_perf_map = true → s.perf_map_resolver = none →
      get_resolver (Except.error e) s = (s, Except.error e)) ∧
    (∀ (s : RegistryState) (e : CrateError) (r : PerfMapResolver),
      s.should_use_perf_map = true → s.perf_map_resolver = none →
      get_resolver (Except.ok r) ((get_resolver (Except.error e) s).1) =
        ({ s with perf_map_resolver := some r }, Except.ok (some r))) := by
  refine ⟨?_, ?_, ?_, ?_⟩
  · intro s c r h1 h2
    unfold get_resolver
    simp [h1, h2]
  · intro s r h1 h2
    unfold get_resolver
    simp [h1, h2]
  · intro s e h1 h2
    unfold get_resolver
    simp [h1, h2]
  · intro s e r h1 h2
    have hfst : (get_resolver (Except.error e) s).1 = s := by
      unfold get_resolver
      simp [h1, h2]
    rw [hfst]
    unfold get_resolver
    simp [h1, h2]

/-- C7 witness: with the feature enabled and the cell empty, a failed
construction returns the error and a retry with a successful construction
fills the cell with that resolver. -/
theorem C7_witness :
    ((⟨true, none⟩ : RegistryState).should_use_perf_map = true) ∧
    ((⟨true, none⟩ : RegistryState).perf_map_resolver = none) ∧
    get_resolver (Except.error CrateError.CreatingError) ⟨true, none⟩ =
      (⟨true, none⟩, Except.error CrateError.CreatingError) ∧
    get_resolver (Except.ok ⟨none⟩)
        ((get_resolver (Except.error CrateError.CreatingError) ⟨true, none⟩).1) =
      (⟨true, some ⟨none⟩⟩, Except.ok (some ⟨none⟩)) :=
  ⟨by decide, by decide,
    C7_singleton_once_not_poisoned.2.2.1 ⟨true, none⟩ CrateError.CreatingError
      (by decide) (by decide),
    C7_singleton_once_not_poisoned.2.2.2 ⟨true, none⟩ CrateError.CreatingError
      ⟨none⟩ (by decide) (by decide)⟩

/-- C8: the watcher replaces the snapshot wholesale (one assignment under
the write lock), so after any sequence of debounced reparse events the
snapshot a reader's resolve observes is the complete parse of a single
file version — never a mixture of entries from two versions. -/
theorem C8_reader_sees_single_version :
    ∀ (files : Nat → Option (List String)) (evs : List Nat) (addr : Nat),
      ∃ v, snapshotAfter files evs = PerfMapResolver.new (files v) ∧
        (snapshotAfter files evs).resolve addr =
          (PerfMapResolver.new (files v)).resolve addr := by
  intro files evs addr
  obtain ⟨v, hv⟩ := snapshotAfter_is_one_version files evs
  exact ⟨v, hv, by rw [hv]⟩

/-- C9: every trace walk terminates with the visitor invoked at most
maximum-depth-guard many times, for every frame chain — including cyclic
or unbounded ones expressible as a successor function — the walk on no
frame visits nothing, and at each frame the walk stops immediately when
the visitor returns false. -/
theorem C9_trace_walk_bounded :
    ∀ (α : Type) (next : α → Option α) (visitor : α → Bool)
      (start : Option α) (fuel : Nat),
      (traceWalk next visitor start fuel).length ≤ fuel ∧
      traceWalk next visitor none fuel = [] ∧
      ∀ (f : α) (d : Nat),
        traceWalk next visitor (some f) (d + 1) =
          if visitor f then f :: traceWalk next visitor (next f) d else [f] := by
  intro α next visitor start fuel
  refine ⟨traceWalk_length_le next visitor fuel start, ?_, ?_⟩
  · cases fuel <;> rfl
  · intro f d
    rfl

/-- C3, counterexample to the claim as stated: the single triple
(0, 1, "a  b") has trivially non-overlapping ranges, yet serializing and
parsing does not recover it — the name's double space is rejoined to a
single space by the parser. -/
theorem C3_name_normalization_counterexample :
    nonOverlapping [(0, 1, "a  b")] ∧
    PerfMap.new (some (([(0, 1, "a  b")] : List (Nat × Nat × String)).map serializeLine)) =
      some ⟨[(0, 1, "a b")]⟩ ∧
    PerfMap.new (some (([(0, 1, "a  b")] : List (Nat × Nat × String)).map serializeLine)) ≠
      some ⟨[(0, 0 + 1, "a  b")]⟩ := by
  have h0 : toHexList 0 = [hexChar 0] := by
    unfold toHexList
    rw [if_pos (by omega)]
  have h1 : toHexList 1 = [hexChar 1] := by
    unfold toHexList
    rw [if_pos (by omega)]
  have hone : serializeLine (0, 1, "a  b") = "0 1 a  b" := by
    show String.mk (toHexList 0 ++ Char.ofNat 32 ::
      (toHexList 1 ++ Char.ofNat 32 :: "a  b".data)) = "0 1 a  b"
    rw [h0, h1]
    decide
  have hser : ([(0, 1, "a  b")] : List (Nat × Nat × String)).map serializeLine =
      ["0 1 a  b"] := by
    rw [List.map_cons, List.map_nil, hone]
  refine ⟨by decide, ?_, ?_⟩
  · rw [hser]
    decide
  · rw [hser]
    decide

/-- C3, amended: for every list of (start, length, name) triples with
non-overlapping ranges in which each start + length fits in usize and each
name is already whitespace-normalized (it equals its own tokens rejoined
with single spaces — names with leading, trailing, consecutive or
non-space whitespace are altered by the rejoin, and a start + length at or
above 2^64 is either rejected or wrapped), serializing each triple as the
line start-hex space length-hex space name and parsing the resulting file
yields exactly the (start, start + length, name) triples in input order. -/
theorem C3_roundtrip (L : List (Nat × Nat × String))
    (_hno : nonOverlapping L)
    (hok : ∀ t ∈ L, t.1 + t.2.1 < USIZE ∧
      String.mk (joinSpace (splitWS t.2.2.data)) = t.2.2) :
    PerfMap.new (some (L.map serializeLine)) =
      some ⟨L.map fun t => (t.1, t.1 + t.2.1, t.2.2)⟩ := by
  have h := parseLines_serialize L hok
  simp [PerfMap.new, h]

/-- C3 witness: the spec's end-to-end scenario file round-trips. -/
theorem C3_witness :
    PerfMap.new (some (([(4096, 256, "my_jit_func"), (8192, 80, "other func")] :
        List (Nat × Nat × String)).map serializeLine)) =
      some ⟨[(4096, 4352, "my_jit_func"), (8192, 8272, "other func")]⟩ :=
  (C3_roundtrip [(4096, 256, "my_jit_func"), (8192, 80, "other func")]
    (by decide) (by decide)).trans (by decide)

/-- C10: for a line whose start and length tokens are each valid
hexadecimal usize values whose sum is at least 2^64, the parser does not
reject the line: it stores end = start + length reduced modulo 2^64, that
stored end is strictly below start, and find can never match any address
against the stored range. -/
theorem C10_overflow_wraps (hs hl nm : List Char) (s l : Nat)
    (h1 : fromStrRadix16 hs = some s) (h2 : fromStrRadix16 hl = some l)
    (hov : USIZE ≤ s + l) :
    parseLine (String.mk (hs ++ Char.ofNat 32 :: (hl ++ Char.ofNat 32 :: nm))) =
      some (s, (s + l) % USIZE, String.mk (joinSpace (splitWS nm))) ∧
    (s + l) % USIZE < s ∧
    ∀ addr : Nat,
      PerfMap.find ⟨[(s, (s + l) % USIZE, String.mk (joinSpace (splitWS nm)))]⟩ addr =
        none := by
  have hs' : s < USIZE := fromStrRadix16_lt hs s h1
  have hl' : l < USIZE := fromStrRadix16_lt hl l h2
  have hwrap : (s + l) % USIZE < s := usize_wrap_lt s l hs' hl' hov
  refine ⟨?_, hwrap, ?_⟩
  · unfold parseLine
    have hdata : (String.mk (hs ++ Char.ofNat 32 :: (hl ++ Char.ofNat 32 :: nm))).data =
        hs ++ Char.ofNat 32 :: (hl ++ Char.ofNat 32 :: nm) := rfl
    rw [hdata]
    rw [splitWS_cons_token hs _ (fromStrRadix16_ne_nil hs s h1) (fromStrRadix16_no_ws hs s h1)]
    rw [splitWS_cons_token hl _ (fromStrRadix16_ne_nil hl l h2) (fromStrRadix16_no_ws hl l h2)]
    simp only [h1, h2]
  · intro addr
    exact findRange_single_empty s ((s + l) % USIZE)
      (String.mk (joinSpace (splitWS nm))) (by omega) addr

/-- C10 witness: the line "ffffffffffffffff 2 f" has start 2^64 - 1 and
length 2, both valid hex usize values; it parses, the stored end wraps to
1, and no address matches the range. -/
theorem C10_witness :
    fromStrRadix16 ("ffffffffffffffff".data) = some 18446744073709551615 ∧
    fromStrRadix16 ("2".data) = some 2 ∧
    USIZE ≤ 18446744073709551615 + 2 ∧
    parseLine (String.mk ("ffffffffffffffff".data ++
        Char.ofNat 32 :: ("2".data ++ Char.ofNat 32 :: "f".data))) =
      some (18446744073709551615, (18446744073709551615 + 2) % USIZE,
        String.mk (joinSpace (splitWS "f".data))) ∧
    (18446744073709551615 + 2) % USIZE < 18446744073709551615 ∧
    PerfMap.find ⟨[(18446744073709551615, (18446744073709551615 + 2) % USIZE,
        String.mk (joinSpace (splitWS "f".data)))]⟩ 0 = none := by
  have h := C10_overflow_wraps "ffffffffffffffff".data "2".data "f".data
    18446744073709551615 2 (by decide) (by decide) (by decide)
  exact ⟨by decide, by decide, by decide, h.1, h.2.1, h.2.2 0⟩
